import Mathlib

/-!
Verification of the position/offset/span translation subsystem of the
`span` package (gopls). The Go source defines, over `go/token.File`:

  * `positionFromOffset`, `position`, `offset` (guarded offset lookup),
  * `OffsetToLineCol8`, `ToOffset` (byte offset <-> 1-based line/column),
  * `NewRange`, `Range.IsPoint`, `Range.Span`, `FileSpan`, `Span.Range`.

`token.File` is the external "Addressable File" collaborator: it carries a
base address, a byte size and the sorted table of line-start offsets, and
answers line/column queries.  We embed it as `TokenFile` below.  The `Span`
and `Point` value model (`clean`, `WithOffset`) lives in a part of the
repository that is not available; those definitions are modelled from the
spec and marked as such.
-/

/-- The external Addressable File (`go/token.File`).  `base` is the first
valid absolute token position (always at least 1 in `go/token`), `size` the
byte length, `lines` the table of line-start offsets maintained by the
parser (`lines.head = 0`, strictly increasing, tail entries `< size`).
`nameAt` gives the position-adjusted filename reported for an offset:
`go/token` line directives may make positions inside one `token.File`
report distinct filenames; absent directives it is constantly `name`. -/
structure TokenFile where
  name : String
  base : Int
  size : Nat
  lines : List Nat
  nameAt : Nat → String

/-- `token.File` invariants maintained by `go/token`: the base is positive,
the line table starts at offset 0, is strictly increasing, and every line
start after the first lies strictly inside the file. -/
def TokenFile.WF (tf : TokenFile) : Prop :=
  1 ≤ tf.base ∧ tf.lines.head? = some 0 ∧ List.Pairwise (· < ·) tf.lines ∧
    ∀ l ∈ tf.lines.tail, l < tf.size

instance (tf : TokenFile) : Decidable tf.WF :=
  inferInstanceAs (Decidable (1 ≤ tf.base ∧ tf.lines.head? = some 0 ∧
    List.Pairwise (· < ·) tf.lines ∧ ∀ l ∈ tf.lines.tail, l < tf.size))

/-- `token.File.LineCount`: the number of lines. -/
def TokenFile.LineCount (tf : TokenFile) : Nat := tf.lines.length

/-- The 1-based line number containing a byte offset: the index of the last
line start that is `≤ off`.  (`go/token` finds it by binary search over the
sorted line table; on a sorted table that is the length of the prefix of
line starts `≤ off`.) -/
def TokenFile.lineOf (tf : TokenFile) (off : Nat) : Nat :=
  (tf.lines.takeWhile (fun l => decide (l ≤ off))).length

/-- The start offset of the line containing `off` (the last line start
`≤ off`), i.e. entry `lineOf off - 1` of the line table. -/
def TokenFile.lineStartOf (tf : TokenFile) (off : Nat) : Nat :=
  tf.lines.getD (tf.lineOf off - 1) 0

/-- `token.Pos.IsValid`: a position is valid iff it is not `NoPos = 0`. -/
def posIsValid (p : Int) : Bool := p != 0

/-- `safetoken.Position tf (tf.Pos off)` for an in-range offset: the
(directive-adjusted) filename, the 1-based line and the 1-based byte
column of the offset. -/
def TokenFile.positionAt (tf : TokenFile) (off : Nat) : String × Nat × Nat :=
  (tf.nameAt off, tf.lineOf off, off - tf.lineStartOf off + 1)

/-- `offset` (the span package's guarded copy of `token.File.Offset`):
errors instead of faulting when `pos` is outside `[base, base+size]`,
otherwise returns `pos - base`.  Mirrors Go's `(int, error)` pair: the
first component is the offset result, the second the error, `none` for
success (the error path carries value `0`). -/
def offset (tf : TokenFile) (pos : Int) : Int × Option String :=
  if pos < tf.base ∨ pos > tf.base + (tf.size : Int) then
    (0, some "invalid pos: not in range")
  else
    (pos - tf.base, none)

/-- `positionFromOffset`: translate a byte offset to (filename, line,
column); fails when the offset is beyond EOF; at `offset = size` exactly it
returns the synthetic one-past-end line `(lastLine + 1, 1)`. -/
def positionFromOffset (tf : TokenFile) (off : Nat) :
    Except String (String × Nat × Nat) :=
  if off > tf.size then
    .error "offset is beyond EOF"
  else
    let p := tf.positionAt off
    if off = tf.size then
      .ok (p.1, p.2.1 + 1, 1)
    else
      .ok p

/-- `position`: resolve a token position to (filename, line, column) by
composing the guarded `offset` with `positionFromOffset`. -/
def position (tf : TokenFile) (pos : Int) : Except String (String × Nat × Nat) :=
  match offset tf pos with
  | (_, some e) => .error e
  | (off, none) => positionFromOffset tf off.toNat

/-- `OffsetToLineCol8`: byte offset to 1-based line and utf-8 column. -/
def OffsetToLineCol8 (tf : TokenFile) (off : Nat) : Except String (Nat × Nat) :=
  match positionFromOffset tf off with
  | .error e => .error e
  | .ok (_, line, col) => .ok (line, col)

/-- `ToOffset`: 1-based line and utf-8 column to byte offset.  Mirrors the
Go `(int, error)` return: the `-1` and `0` values accompanying the error
strings are exactly the ones the source returns on each path. -/
def ToOffset (tf : TokenFile) (line col : Int) : Int × Option String :=
  if line < 1 then
    (-1, some "invalid line")
  else
    let lineMax : Int := (tf.LineCount : Int) + 1
    if line > lineMax then
      (-1, some "line is beyond end of file")
    else if line = lineMax then
      if col > 1 then
        (-1, some "column is beyond end of file")
      else
        ((tf.size : Int), none)
    else
      -- tf.LineStart line: guarded by line ≥ 1 and line ≤ LineCount above
      let pos : Int := tf.base + (tf.lines.getD (line.toNat - 1) 0 : Int)
      if ¬ posIsValid pos then
        (-1, some "line is not in file")
      else
        let pos := pos + (col - 1)
        if pos > tf.base + (tf.size : Int) then
          (0, some "ToOffset: column is beyond end of file")
        else
          offset tf pos

/-- A file for concrete checks: content "package main\nfunc main() \x7b\x7d\n",
28 bytes, line 1 = bytes 0-12, line 2 = bytes 13-27. -/
def exFile : TokenFile :=
  { name := "a.go", base := 1, size := 28, lines := [0, 13],
    nameAt := fun _ => "a.go" }


/-- `Range`: a token-position region bound to one `token.File`.  The Go
fields are `TokFile`, `Start`, `End` (`End` is a Lean keyword, so `stop`). -/
structure Range where
  tokFile : TokenFile
  start : Int
  stop : Int

/-- `NewRange file start end`: panics (modelled by `none`) when `file` is
nil or `start` is an invalid `token.Pos`; an invalid `end` is replaced by
`start`.  The source deliberately does not assert that the positions lie
inside `file` (the stronger assertion is a `TODO` there). -/
def NewRange (file : Option TokenFile) (start stop : Int) : Option Range :=
  match file with
  | none => none
  | some f =>
    if ¬ posIsValid start then
      none
    else
      some { tokFile := f, start := start,
             stop := if posIsValid stop then stop else start }

/-- `Range.IsPoint`: the range is a single point. -/
def Range.IsPoint (r : Range) : Bool := r.start == r.stop

/-- Modelled from the spec: the Point value of the Span layer (span package
code not available here).  A Point carries a 1-based line, a 1-based byte
column, and a byte offset that is `none` until the Point has been resolved
against a concrete file (the spec's unresolved/resolved duality). -/
structure Point where
  line : Nat := 0
  column : Nat := 0
  offs : Option Nat := none
deriving DecidableEq

/-- Modelled from the spec: a Span is a file identity plus start/end
Points (`end` is a Lean keyword, so `stop`). -/
structure Span where
  uri : String := ""
  start : Point := {}
  stop : Point := {}
deriving DecidableEq

/-- Modelled from the spec: Span normalization (`clean`) — an end Point
omitted at construction defaults to the start Point. -/
def Span.clean (s : Span) : Span :=
  if s.stop = ({} : Point) then { s with stop := s.start } else s

/-- Modelled from the spec: resolving a Point against a file.  A Point
whose offset is already resolved keeps it; one constructed from only
line/column derives the offset via `ToOffset`, failing on its errors. -/
def Point.withOffset (p : Point) (tf : TokenFile) : Except String Point :=
  match p.offs with
  | some _ => .ok p
  | none =>
    match ToOffset tf (p.line : Int) (p.column : Int) with
    | (o, none) => .ok { p with offs := some o.toNat }
    | (_, some e) => .error e

/-- Modelled from the spec: `Span.WithOffset` resolves both endpoints'
offsets against the supplied file. -/
def Span.WithOffset (s : Span) (tf : TokenFile) : Except String Span :=
  match s.start.withOffset tf with
  | .error e => .error e
  | .ok st =>
    match s.stop.withOffset tf with
    | .error e => .error e
    | .ok en => .ok { s with start := st, stop := en }

/-- `FileSpan`: build a Span from two token positions of one file.  The
start must be valid; both endpoints are resolved to (filename, line,
column); if the two filenames differ the span would straddle two files and
the conversion fails.  The filename becomes the span's URI (`URIFromPath`
is an external path-to-URI step, modelled as the identity). -/
def FileSpan (file : TokenFile) (start stop : Int) : Except String Span :=
  if ¬ posIsValid start then
    .error "start pos is not valid"
  else
    match position file start with
    | .error e => .error e
    | .ok (startFilename, sl, sc) =>
      let s : Span := { uri := startFilename, start := { line := sl, column := sc } }
      if posIsValid stop then
        match position file stop with
        | .error e => .error e
        | .ok (endFilename, el, ec) =>
          if endFilename ≠ startFilename then
            .error "span begins in one file but ends in another"
          else
            (({ s with stop := { line := el, column := ec } } : Span).clean).WithOffset file
      else
        (s.clean).WithOffset file

/-- `Range.Span`: convert a Range to a Span using its bound file. -/
def Range.toSpan (r : Range) : Except String Span :=
  FileSpan r.tokFile r.start r.stop

/-- `Span.Range`: convert a Span back to a Range for the supplied file.
After resolving offsets, any offset beyond the file's size is rejected
with an error (never a fault: `go/token.Pos` would panic on it). -/
def Span.toRangeIn (s : Span) (tf : TokenFile) : Except String Range :=
  match s.WithOffset tf with
  | .error e => .error e
  | .ok s' =>
    let so := s'.start.offs.getD 0
    let eo := s'.stop.offs.getD 0
    if so > tf.size then
      .error "start offset is past the end of the file"
    else if eo > tf.size then
      .error "end offset is past the end of the file"
    else
      .ok { tokFile := tf, start := tf.base + (so : Int), stop := tf.base + (eo : Int) }

/-- A file whose positions report two distinct filenames (as a line
directive produces): offsets below 13 report "a.go", the rest "b.go". -/
def exFile2 : TokenFile :=
  { name := "a.go", base := 1, size := 28, lines := [0, 13],
    nameAt := fun o => if o < 13 then "a.go" else "b.go" }

/-- A 10-byte generation of the same identity as `exFile` (the file after
an edit shrank it): used for the staleness scenario. -/
def exFile10 : TokenFile :=
  { name := "a.go", base := 1, size := 10, lines := [0],
    nameAt := fun _ => "a.go" }

/-- A Span resolved against the 28-byte generation of "a.go": start at
offset 0, end at offset 28. -/
def staleSpan : Span :=
  { uri := "a.go", start := { line := 1, column := 1, offs := some 0 },
    stop := { line := 3, column := 1, offs := some 28 } }


example : exFile.WF := by decide
example : OffsetToLineCol8 exFile 0 = .ok (1, 1) := rfl
example : OffsetToLineCol8 exFile 13 = .ok (2, 1) := rfl
example : OffsetToLineCol8 exFile 28 = .ok (3, 1) := rfl
example : ToOffset exFile 1 1 = (0, none) := by decide
example : ToOffset exFile 3 1 = (28, none) := by decide
example : ToOffset exFile 2 15 = (27, none) := by decide
example : (ToOffset exFile 0 1).1 = -1 := by decide
example : (ToOffset exFile 100 1).1 = -1 := by decide
example : ToOffset exFile 1 100 = (0, some "ToOffset: column is beyond end of file") := by decide
example : (NewRange none 1 1).isNone := by decide
example : ∃ r, NewRange (some exFile) 1 0 = some r ∧ r.IsPoint := by
  refine ⟨_, rfl, rfl⟩
example : ∃ sp, FileSpan exFile 1 15 = .ok sp ∧ sp.start.offs = some 0 ∧
    sp.stop.offs = some 14 := by
  refine ⟨_, rfl, rfl, rfl⟩

section Lemmas

/-- Every entry of the `≤ off` prefix of the line table satisfies the
predicate; in particular entry `k` of the table itself, for `k` below the
prefix length. -/
lemma takeWhile_getD_sat (p : Nat → Bool) (l : List Nat) (k : Nat)
    (hk : k < (l.takeWhile p).length) : p (l.getD k 0) = true := by
  induction l generalizing k with
  | nil => simp at hk
  | cons a t ih =>
    by_cases hpa : p a = true
    · rw [List.takeWhile_cons, if_pos hpa] at hk
      cases k with
      | zero => simpa using hpa
      | succ k =>
        simp only [List.length_cons, Nat.succ_lt_succ_iff] at hk
        simpa using ih k hk
    · rw [List.takeWhile_cons, if_neg hpa] at hk
      simp at hk

lemma length_takeWhile_le' (p : Nat → Bool) (l : List Nat) :
    (l.takeWhile p).length ≤ l.length := by
  induction l with
  | nil => simp
  | cons a t ih =>
    rw [List.takeWhile_cons]
    by_cases hpa : p a = true
    · simpa [hpa] using ih
    · simp [hpa]

lemma lineOf_pos (tf : TokenFile) (hwf : tf.WF) (off : Nat) :
    1 ≤ tf.lineOf off := by
  obtain ⟨-, hhead, -, -⟩ := hwf
  unfold TokenFile.lineOf
  cases hl : tf.lines with
  | nil => rw [hl] at hhead; simp at hhead
  | cons a t =>
    rw [hl] at hhead
    simp only [List.head?_cons, Option.some.injEq] at hhead
    subst hhead
    rw [List.takeWhile_cons]
    simp

lemma lineOf_le_length (tf : TokenFile) (off : Nat) :
    tf.lineOf off ≤ tf.lines.length := length_takeWhile_le' _ _

lemma lineStartOf_le (tf : TokenFile) (hwf : tf.WF) (off : Nat) :
    tf.lineStartOf off ≤ off := by
  have h1 := lineOf_pos tf hwf off
  have hk : tf.lineOf off - 1 <
      (tf.lines.takeWhile (fun l => decide (l ≤ off))).length := by
    have : tf.lineOf off = (tf.lines.takeWhile (fun l => decide (l ≤ off))).length := rfl
    omega
  have := takeWhile_getD_sat (fun l => decide (l ≤ off)) tf.lines _ hk
  simpa [TokenFile.lineStartOf] using this

lemma takeWhile_all (p : Nat → Bool) (l : List Nat) (h : ∀ a ∈ l, p a = true) :
    l.takeWhile p = l := by
  induction l with
  | nil => rfl
  | cons a t ih =>
    rw [List.takeWhile_cons, if_pos (h a (by simp))]
    rw [ih (fun b hb => h b (by simp [hb]))]

lemma lineOf_size (tf : TokenFile) (hwf : tf.WF) :
    tf.lineOf tf.size = tf.lines.length := by
  obtain ⟨-, hhead, -, htail⟩ := hwf
  unfold TokenFile.lineOf
  rw [takeWhile_all]
  intro a ha
  cases hl : tf.lines with
  | nil => rw [hl] at ha; simp at ha
  | cons b t =>
    rw [hl] at ha hhead htail
    simp only [List.head?_cons, Option.some.injEq] at hhead
    subst hhead
    simp only [List.tail_cons] at htail
    rcases List.mem_cons.mp ha with h0 | hmem
    · subst h0; simp
    · have := htail a hmem
      simp; omega

/-- Core round trip: on a well-formed file, `positionFromOffset` at any
in-range offset succeeds, and `ToOffset` maps the resulting line/column
back to the same offset with no error. -/
lemma roundtrip_core (tf : TokenFile) (hwf : tf.WF) (o : Nat) (ho : o ≤ tf.size) :
    ∃ l c, positionFromOffset tf o = .ok (tf.nameAt o, l, c) ∧
      ToOffset tf (l : Int) (c : Int) = ((o : Int), none) ∧ 1 ≤ l := by
  have hbase : 1 ≤ tf.base := hwf.1
  rcases eq_or_lt_of_le ho with heq | hlt
  · -- o = size: the EOF sentinel line maps back to size
    refine ⟨tf.lines.length + 1, 1, ?_, ?_, by omega⟩
    · unfold positionFromOffset
      rw [if_neg (by omega), if_pos heq]
      simp [TokenFile.positionAt, heq, lineOf_size tf hwf]
    · unfold ToOffset TokenFile.LineCount
      rw [if_neg (by push_cast; omega), if_neg (by push_cast; omega),
        if_pos (by push_cast; ring), if_neg (by omega)]
      rw [heq]
  · -- o < size: a real line/column, mapped back by LineStart arithmetic
    have h1 := lineOf_pos tf hwf o
    have h2 := lineOf_le_length tf o
    have h3 := lineStartOf_le tf hwf o
    refine ⟨tf.lineOf o, o - tf.lineStartOf o + 1, ?_, ?_, h1⟩
    · unfold positionFromOffset
      rw [if_neg (by omega), if_neg (by omega)]
      rfl
    · unfold ToOffset TokenFile.LineCount
      rw [if_neg (by omega), if_neg (by omega), if_neg (by omega)]
      have hgetD : tf.lines.getD ((tf.lineOf o : Int).toNat - 1) 0 =
          tf.lineStartOf o := by
        norm_num [TokenFile.lineStartOf]
      rw [hgetD]
      rw [if_neg (by simp [posIsValid]; omega)]
      have hpos : tf.base + (tf.lineStartOf o : Int) +
          (((o - tf.lineStartOf o + 1 : Nat) : Int) - 1) = tf.base + (o : Int) := by
        omega
      rw [hpos, if_neg (by omega)]
      unfold offset
      rw [if_neg (by omega)]
      norm_num

end Lemmas

section MoreLemmas

/-- For an in-range token position, `position` reduces to
`positionFromOffset` at `pos - base`. -/
lemma position_eq (tf : TokenFile) (pos : Int)
    (h1 : tf.base ≤ pos) (h2 : pos ≤ tf.base + (tf.size : Int)) :
    position tf pos = positionFromOffset tf (pos - tf.base).toNat := by
  have hoff : offset tf pos = (pos - tf.base, none) := by
    unfold offset; rw [if_neg (by omega)]
  unfold position
  rw [hoff]

/-- For an in-range token position, `position` succeeds and reports the
(directive-adjusted) filename of the position's offset. -/
lemma position_filename (tf : TokenFile) (pos : Int)
    (h1 : tf.base ≤ pos) (h2 : pos ≤ tf.base + (tf.size : Int)) :
    ∃ l c, position tf pos = .ok (tf.nameAt (pos - tf.base).toNat, l, c) := by
  rw [position_eq tf pos h1 h2]
  unfold positionFromOffset
  rw [if_neg (by omega)]
  by_cases hsz : (pos - tf.base).toNat = tf.size
  · rw [if_pos hsz]; exact ⟨_, _, rfl⟩
  · rw [if_neg hsz]; exact ⟨_, _, rfl⟩

/-- Resolving a Span whose two endpoints already carry offsets is the
identity. -/
lemma withOffset_resolved (s : Span) (tf : TokenFile) (so eo : Nat)
    (hs : s.start.offs = some so) (he : s.stop.offs = some eo) :
    s.WithOffset tf = .ok s := by
  have h1 : s.start.withOffset tf = .ok s.start := by
    unfold Point.withOffset; rw [hs]
  have h2 : s.stop.withOffset tf = .ok s.stop := by
    unfold Point.withOffset; rw [he]
  unfold Span.WithOffset
  rw [h1, h2]

/-- Converting a resolved Span with in-bounds offsets back to a Range
yields the positions `base + offset`. -/
lemma toRangeIn_resolved (s : Span) (tf : TokenFile) (so eo : Nat)
    (hs : s.start.offs = some so) (he : s.stop.offs = some eo)
    (h1 : so ≤ tf.size) (h2 : eo ≤ tf.size) :
    s.toRangeIn tf =
      .ok (Range.mk tf (tf.base + (so : Int)) (tf.base + (eo : Int))) := by
  unfold Span.toRangeIn
  rw [withOffset_resolved s tf so eo hs he]
  simp only [hs, he, Option.getD_some]
  rw [if_neg (by omega), if_neg (by omega)]

/-- A nonzero position passes the `IsValid` guard. -/
lemma not_not_posIsValid {p : Int} (h : p ≠ 0) : ¬ ¬ posIsValid p = true := by
  simp [posIsValid, h]

end MoreLemmas

/-- Claim C1: for every well-formed file and every byte offset `o` with
`0 ≤ o ≤ size`, `OffsetToLineCol8` succeeds, and `ToOffset` maps the
resulting 1-based (line, column) pair back to exactly `o`. -/
theorem C1_offset_linecol_roundtrip (tf : TokenFile) (hwf : tf.WF) (o : Nat)
    (ho : o ≤ tf.size) :
    ∃ l c, OffsetToLineCol8 tf o = .ok (l, c) ∧
      ToOffset tf (l : Int) (c : Int) = ((o : Int), none) := by
  obtain ⟨l, c, h1, h2, -⟩ := roundtrip_core tf hwf o ho
  refine ⟨l, c, ?_, h2⟩
  unfold OffsetToLineCol8
  rw [h1]

theorem C1_offset_linecol_roundtrip_witness :
    ∃ l c, OffsetToLineCol8 exFile 13 = .ok (l, c) ∧
      ToOffset exFile (l : Int) (c : Int) = ((13 : Int), none) :=
  C1_offset_linecol_roundtrip exFile (by decide) 13 (by decide)

/-- Claim C2: on a well-formed file, `positionFromOffset` at exactly
`size` succeeds with the synthetic one-past-end line
`(lastRealLine + 1, 1)` (the last real line number is `LineCount`), and
fails for every offset strictly greater than `size`. -/
theorem C2_eof_sentinel (tf : TokenFile) (hwf : tf.WF) :
    positionFromOffset tf tf.size =
      .ok (tf.nameAt tf.size, tf.LineCount + 1, 1) ∧
    ∀ o : Nat, o > tf.size → ∃ e, positionFromOffset tf o = .error e := by
  constructor
  · unfold positionFromOffset
    rw [if_neg (by omega), if_pos rfl]
    simp [TokenFile.positionAt, TokenFile.LineCount, lineOf_size tf hwf]
  · intro o hgt
    refine ⟨"offset is beyond EOF", ?_⟩
    unfold positionFromOffset
    rw [if_pos hgt]

theorem C2_eof_sentinel_witness :
    positionFromOffset exFile 28 = .ok ("a.go", 3, 1) ∧
    ∀ o : Nat, o > 28 → ∃ e, positionFromOffset exFile o = .error e :=
  C2_eof_sentinel exFile (by decide)

/-- Claim C3: `ToOffset` input validation — `line < 1` fails with the
invalid-line error; `line > LineCount + 1` fails with the beyond-EOF
error; on the sentinel line `LineCount + 1`, column 1 yields exactly
`size` and any column greater than 1 fails. -/
theorem C3_tooffset_validation (tf : TokenFile) :
    (∀ line col : Int, line < 1 →
      ToOffset tf line col = (-1, some "invalid line")) ∧
    (∀ line col : Int, line > (tf.LineCount : Int) + 1 →
      ToOffset tf line col = (-1, some "line is beyond end of file")) ∧
    ToOffset tf ((tf.LineCount : Int) + 1) 1 = ((tf.size : Int), none) ∧
    (∀ col : Int, col > 1 →
      ToOffset tf ((tf.LineCount : Int) + 1) col =
        (-1, some "column is beyond end of file")) := by
  refine ⟨?_, ?_, ?_, ?_⟩
  · intro line col h
    unfold ToOffset
    rw [if_pos h]
  · intro line col h
    unfold ToOffset
    rw [if_neg (by omega), if_pos h]
  · unfold ToOffset
    rw [if_neg (by omega), if_neg (by omega), if_pos rfl, if_neg (by omega)]
  · intro col h
    unfold ToOffset
    rw [if_neg (by omega), if_neg (by omega), if_pos rfl, if_pos h]

theorem C3_tooffset_validation_witness :
    ToOffset exFile 0 5 = (-1, some "invalid line") ∧
    ToOffset exFile 100 1 = (-1, some "line is beyond end of file") ∧
    ToOffset exFile 3 1 = ((28 : Int), none) ∧
    ToOffset exFile 3 2 = (-1, some "column is beyond end of file") :=
  ⟨(C3_tooffset_validation exFile).1 0 5 (by decide),
   (C3_tooffset_validation exFile).2.1 100 1 (by decide),
   (C3_tooffset_validation exFile).2.2.1,
   (C3_tooffset_validation exFile).2.2.2 2 (by decide)⟩

/-- Claim C5 counterexample: the claim says `NewRange` must panic whenever
the supplied start is not a valid position within the file's address space.
For `exFile` that space is `[1, 29]`, yet with start = 1000 — a valid
`token.Pos` far outside it — `NewRange` returns a Range instead of
panicking (the source leaves the containment assertion as a TODO). -/
theorem C5_newrange_counterexample :
    (1000 > exFile.base + (exFile.size : Int)) ∧
    (NewRange (some exFile) 1000 1000).isSome = true := by
  constructor
  · decide
  · decide

/-- Claim C5 (amended): `NewRange` panics exactly when the supplied file
is nil or the supplied start is an invalid `token.Pos` (`NoPos = 0`); it
does not validate that start lies within the file's address space. -/
theorem C5_newrange_failfast (file : Option TokenFile) (start stop : Int) :
    NewRange file start stop = none ↔ file = none ∨ start = 0 := by
  cases file with
  | none => simp [NewRange]
  | some f =>
    by_cases h : start = 0
    · simp [NewRange, posIsValid, h]
    · simp [NewRange, posIsValid, h]

/-- Claim C7: `NewRange` on a non-nil file with a valid start and an
invalid end position returns a Range whose end equals its start, so
`IsPoint` on the result is true. -/
theorem C7_invalid_end_gives_point (f : TokenFile) (s e : Int)
    (hs : s ≠ 0) (he : e = 0) :
    ∃ r, NewRange (some f) s e = some r ∧ r.IsPoint = true := by
  subst he
  refine ⟨Range.mk f s s, ?_, ?_⟩
  · simp [NewRange, posIsValid, hs]
  · simp [Range.IsPoint]

theorem C7_invalid_end_gives_point_witness :
    ∃ r, NewRange (some exFile) 5 0 = some r ∧ r.IsPoint = true :=
  C7_invalid_end_gives_point exFile 5 0 (by decide) rfl

/-- Claim C8: the guarded `offset` primitive errors exactly when the
position lies outside `[base, base + size]`, and otherwise returns
`pos - base` with no error. -/
theorem C8_offset_guarded (tf : TokenFile) (p : Int) :
    ((offset tf p).2 = none ↔ tf.base ≤ p ∧ p ≤ tf.base + (tf.size : Int)) ∧
    (tf.base ≤ p → p ≤ tf.base + (tf.size : Int) →
      offset tf p = (p - tf.base, none)) := by
  constructor
  · unfold offset
    by_cases h : p < tf.base ∨ p > tf.base + (tf.size : Int)
    · rw [if_pos h]; simp; omega
    · rw [if_neg h]; simp; omega
  · intro h1 h2
    unfold offset
    rw [if_neg (by omega)]

theorem C8_offset_guarded_witness :
    offset exFile 10 = ((9 : Int), none) :=
  (C8_offset_guarded exFile 10).2 (by decide) (by decide)

/-- Claim C10: the offset value `ToOffset` returns alongside an error is
not a uniform sentinel: the invalid-line, line-beyond-EOF and
sentinel-line-column error paths return `-1`, while the path where
`lineStart + (column - 1)` exceeds `base + size` returns `0` — an offset
that is itself within the file (`0 ≤ size`) — together with the error, so
failure must be detected from the error, not the offset value. -/
theorem C10_tooffset_error_values (tf : TokenFile) :
    (∀ line col : Int, line < 1 → ToOffset tf line col =
      (-1, some "invalid line")) ∧
    (∀ line col : Int, line > (tf.LineCount : Int) + 1 →
      ToOffset tf line col = (-1, some "line is beyond end of file")) ∧
    (∀ col : Int, col > 1 → ToOffset tf ((tf.LineCount : Int) + 1) col =
      (-1, some "column is beyond end of file")) ∧
    (∀ line col : Int, 1 ≤ line → line ≤ (tf.LineCount : Int) →
      tf.base + (tf.lines.getD (line.toNat - 1) 0 : Int) ≠ 0 →
      tf.base + (tf.lines.getD (line.toNat - 1) 0 : Int) + (col - 1) >
        tf.base + (tf.size : Int) →
      ToOffset tf line col =
        (0, some "ToOffset: column is beyond end of file") ∧
        (0 : Int) ≤ (tf.size : Int)) := by
  refine ⟨?_, ?_, ?_, ?_⟩
  · intro line col h
    unfold ToOffset
    rw [if_pos h]
  · intro line col h
    unfold ToOffset
    rw [if_neg (by omega), if_pos h]
  · intro col h
    unfold ToOffset
    rw [if_neg (by omega), if_neg (by omega), if_pos rfl, if_pos h]
  · intro line col h1 h2 hne hgt
    refine ⟨?_, by omega⟩
    unfold ToOffset
    rw [if_neg (by omega), if_neg (by omega), if_neg (by omega)]
    rw [if_neg (not_not_posIsValid hne)]
    rw [if_pos hgt]

theorem C10_tooffset_error_values_witness :
    ToOffset exFile 0 7 = (-1, some "invalid line") ∧
    ToOffset exFile 50 1 = (-1, some "line is beyond end of file") ∧
    ToOffset exFile 3 9 = (-1, some "column is beyond end of file") ∧
    (ToOffset exFile 1 100 =
      (0, some "ToOffset: column is beyond end of file") ∧
      (0 : Int) ≤ ((28 : Nat) : Int)) :=
  ⟨(C10_tooffset_error_values exFile).1 0 7 (by decide),
   (C10_tooffset_error_values exFile).2.1 50 1 (by decide),
   (C10_tooffset_error_values exFile).2.2.1 9 (by decide),
   (C10_tooffset_error_values exFile).2.2.2 1 100 (by decide) (by decide)
     (by decide) (by decide)⟩

/-- Claim C4: converting a resolved Span back to a Range against a file
too short for its offsets returns a recoverable error — `toRangeIn` is a
total function, so it can never fault. -/
theorem C4_stale_span_bounds (s : Span) (tf : TokenFile) (so eo : Nat)
    (hs : s.start.offs = some so) (he : s.stop.offs = some eo)
    (hgt : so > tf.size ∨ eo > tf.size) :
    ∃ e, s.toRangeIn tf = .error e := by
  by_cases h1 : so > tf.size
  · refine ⟨"start offset is past the end of the file", ?_⟩
    unfold Span.toRangeIn
    rw [withOffset_resolved s tf so eo hs he]
    simp only [hs, he, Option.getD_some]
    rw [if_pos h1]
  · refine ⟨"end offset is past the end of the file", ?_⟩
    unfold Span.toRangeIn
    rw [withOffset_resolved s tf so eo hs he]
    simp only [hs, he, Option.getD_some]
    rw [if_neg h1, if_pos (by omega)]

theorem C4_stale_span_bounds_witness :
    ∃ e, staleSpan.toRangeIn exFile10 = .error e :=
  C4_stale_span_bounds staleSpan exFile10 0 28 rfl rfl (by decide)

/-- Claim C6: when the two endpoints of `FileSpan` resolve to different
filenames, the conversion fails with the cross-file error instead of
returning a Span. -/
theorem C6_cross_file_rejected (tf : TokenFile) (hwf : tf.WF)
    (start stop : Int)
    (hs1 : tf.base ≤ start) (hs2 : start ≤ tf.base + (tf.size : Int))
    (he1 : tf.base ≤ stop) (he2 : stop ≤ tf.base + (tf.size : Int))
    (hname : tf.nameAt (start - tf.base).toNat ≠
      tf.nameAt (stop - tf.base).toNat) :
    FileSpan tf start stop =
      .error "span begins in one file but ends in another" := by
  have hb : 1 ≤ tf.base := hwf.1
  obtain ⟨l1, c1, hp1⟩ := position_filename tf start hs1 hs2
  obtain ⟨l2, c2, hp2⟩ := position_filename tf stop he1 he2
  have hvstop : posIsValid stop = true := by
    simp only [posIsValid, bne_iff_ne, ne_eq]
    omega
  unfold FileSpan
  rw [if_neg (not_not_posIsValid (by omega))]
  simp only [hp1]
  rw [if_pos hvstop]
  simp only [hp2]
  rw [if_pos (Ne.symm hname)]

theorem C6_cross_file_rejected_witness :
    FileSpan exFile2 1 20 =
      .error "span begins in one file but ends in another" :=
  C6_cross_file_rejected exFile2 (by decide) 1 20 (by decide) (by decide)
    (by decide) (by decide) (by decide)

/-- On a well-formed file, `FileSpan` on two in-range positions whose
offsets report the same filename succeeds, and the resulting Span carries
exactly the two byte offsets of the positions. -/
lemma fileSpan_ok (tf : TokenFile) (hwf : tf.WF) (start stop : Int)
    (hs1 : tf.base ≤ start) (hs2 : start ≤ tf.base + (tf.size : Int))
    (he1 : tf.base ≤ stop) (he2 : stop ≤ tf.base + (tf.size : Int))
    (hname : tf.nameAt (start - tf.base).toNat =
      tf.nameAt (stop - tf.base).toNat) :
    ∃ sp, FileSpan tf start stop = .ok sp ∧
      sp.start.offs = some (start - tf.base).toNat ∧
      sp.stop.offs = some (stop - tf.base).toNat := by
  have hb : 1 ≤ tf.base := hwf.1
  have ho1 : (start - tf.base).toNat ≤ tf.size := by omega
  have ho2 : (stop - tf.base).toNat ≤ tf.size := by omega
  obtain ⟨l1, c1, hpf1, hto1, hl1⟩ := roundtrip_core tf hwf _ ho1
  obtain ⟨l2, c2, hpf2, hto2, hl2⟩ := roundtrip_core tf hwf _ ho2
  have hp1 : position tf start =
      .ok (tf.nameAt (start - tf.base).toNat, l1, c1) := by
    rw [position_eq tf start hs1 hs2, hpf1]
  have hp2 : position tf stop =
      .ok (tf.nameAt (stop - tf.base).toNat, l2, c2) := by
    rw [position_eq tf stop he1 he2, hpf2]
  have hvstop : posIsValid stop = true := by
    simp only [posIsValid, bne_iff_ne, ne_eq]
    omega
  unfold FileSpan
  rw [if_neg (not_not_posIsValid (by omega))]
  simp only [hp1]
  rw [if_pos hvstop]
  simp only [hp2]
  rw [if_neg (not_ne_iff.mpr hname.symm)]
  have hclean : ∀ u : String,
      Span.clean (Span.mk u (Point.mk l1 c1 none) (Point.mk l2 c2 none)) =
        Span.mk u (Point.mk l1 c1 none) (Point.mk l2 c2 none) := by
    intro u
    unfold Span.clean
    rw [if_neg (by simp only [Point.mk.injEq]; intro hcon; omega)]
  rw [hclean]
  unfold Span.WithOffset Point.withOffset
  simp only [hto1, hto2]
  exact ⟨_, rfl, rfl, rfl⟩

/-- Claim C9: a Range whose endpoints are valid in-range positions of its
bound, unchanged file survives the round trip through `toSpan` and back
(`Span.Range`), recovering the original start and end token positions. -/
theorem C9_range_span_roundtrip (tf : TokenFile) (hwf : tf.WF) (r : Range)
    (hfile : r.tokFile = tf)
    (hs1 : tf.base ≤ r.start) (hs2 : r.start ≤ tf.base + (tf.size : Int))
    (he1 : tf.base ≤ r.stop) (he2 : r.stop ≤ tf.base + (tf.size : Int))
    (hname : tf.nameAt (r.start - tf.base).toNat =
      tf.nameAt (r.stop - tf.base).toNat) :
    ∃ sp r2, r.toSpan = .ok sp ∧ sp.toRangeIn tf = .ok r2 ∧
      r2.start = r.start ∧ r2.stop = r.stop ∧ r2.tokFile = tf := by
  have hb : 1 ≤ tf.base := hwf.1
  obtain ⟨sp, hsp, hso, heo⟩ :=
    fileSpan_ok tf hwf r.start r.stop hs1 hs2 he1 he2 hname
  have ho1 : (r.start - tf.base).toNat ≤ tf.size := by omega
  have ho2 : (r.stop - tf.base).toNat ≤ tf.size := by omega
  refine ⟨sp,
    Range.mk tf (tf.base + (((r.start - tf.base).toNat : Nat) : Int))
      (tf.base + (((r.stop - tf.base).toNat : Nat) : Int)),
    ?_, ?_, ?_, ?_, rfl⟩
  · unfold Range.toSpan
    rw [hfile]
    exact hsp
  · exact toRangeIn_resolved sp tf _ _ hso heo ho1 ho2
  · simp only []
    omega
  · simp only []
    omega

theorem C9_range_span_roundtrip_witness :
    ∃ sp r2, (Range.mk exFile 5 20).toSpan = .ok sp ∧
      sp.toRangeIn exFile = .ok r2 ∧
      r2.start = (Range.mk exFile 5 20).start ∧
      r2.stop = (Range.mk exFile 5 20).stop ∧ r2.tokFile = exFile :=
  C9_range_span_roundtrip exFile (by decide) (Range.mk exFile 5 20) rfl
    (by decide) (by decide) (by decide) (by decide) rfl
